import Mathlib

/-!
# Verification of the multipart blob-upload coordinator

A shallow embedding of the multipart-upload code of the blobstore package
(`NewUpload`, `PutPart`, `checkPartSizes`, `FinishUpload`, `setUploadHash`,
`RemoveExpiredUploads`, `RemoveUpload`, `removeUpload`, `getUpload`,
`initializePart`, `uploadPartName`, `copyBlob`), together with theorems
settling the specification's claims about it.

The metadata collection (`uploadc` in MongoDB) is modelled as an association
list of upload documents keyed by id; the conditional updates used by the
code (`Update`/`Remove` with a selector testing for field absence,
`UpdateId`, `RemoveId`) are modelled directly on that list. The `hash` field
is stored with `omitempty`, so the empty string represents an absent field
exactly as in the database. The backing single-blob store (`Put`, `Open`,
`Remove` - an external capability, outside the sources) is modelled from the
spec as an association list from blob name to byte content, plus an oracle
`failRemove` naming the blobs whose backing-store removal fails with an I/O
error (the spec requires tolerating an already-absent blob but logging other
removal failures). The SHA-384 hasher (`NewHash`, also outside the sources)
is modelled from the spec as an arbitrary function `hashFn` from the
accumulated byte stream to a digest string, passed explicitly to the
operations that hash.
-/

namespace Blobstore

/-- Error outcomes, one constructor per error site of the code. Message
strings are abstracted to constructors (with the data that appears in the
message where relevant). `notFound` models an error whose `errgo` cause is
`ErrNotFound` / `mgo.ErrNotFound`. -/
inductive UploadError where
  | negativePartNumber
  | partNumberTooBig
  | nonPositiveSize
  | partTooBig
  | notFound
  | partTooSmallUpload
  | partTooSmall (i : Int)
  | hashMismatchPart
  | uploadAlreadyComplete
  | concurrentUpload
  | cannotMarkComplete
  | partCountMismatch (got want : Nat)
  | partNotUploaded (i : Nat)
  | hashMismatchFinish (i : Nat)
  | nilPartDeref
  | uploadExpiredOrRemoved
  | ioError (name : String)
  | removeFailed
deriving DecidableEq, Repr

/-- The spec's Validation error kind: bad index/size/part-count, premature
finish, size-constraint violation, finish-time hash mismatch. -/
def UploadError.isValidation : UploadError → Bool
  | .negativePartNumber | .partNumberTooBig | .nonPositiveSize | .partTooBig
  | .partTooSmallUpload | .partTooSmall _ | .partCountMismatch _ _
  | .partNotUploaded _ | .hashMismatchFinish _ => true
  | _ => false

/-- PartInfo holds information about one part of a multipart upload
(hash, size, and whether the part blob has been written). -/
structure PartInfo where
  hash : String
  size : Int
  complete : Bool
deriving DecidableEq, Repr

/-- Part represents one part of a multipart blob, as passed by the caller
to FinishUpload. -/
structure Part where
  hash : String
deriving DecidableEq, Repr

/-- MultipartIndex holds the index of all the parts of a multipart blob:
the ordered list of part sizes, each converted to uint32 (represented as a
natural number below 2^32). -/
structure MultipartIndex where
  sizes : List Nat
deriving DecidableEq, Repr

/-- uploadDoc: the record held for a pending multipart upload. `hash` is
empty until FinishUpload succeeds (the field is stored with `omitempty`, so
the empty string is exactly "field absent" in the database). -/
structure UploadDoc where
  id : String
  hash : String
  expires : Int
  parts : List (Option PartInfo)
deriving DecidableEq, Repr

/-- The whole mutable state: the upload-metadata collection (keyed by the
unique `_id`), and the backing blob store modelled from the spec as a map
from blob name to content plus the `failRemove` oracle of names whose
backing-store removal fails with an I/O error. -/
structure Store where
  uploads : List UploadDoc
  blobs : List (String × List Nat)
  failRemove : List String
deriving DecidableEq, Repr

/-- maxParts: maximum allowed part number + 1. -/
def maxParts : Int := 400

/-- minPartSize: minimum size of any non-last part (5 MiB). -/
def minPartSize : Int := 5 * 1024 * 1024

/-- maxPartSize: exclusive upper bound on any part size (2^32 - 1). -/
def maxPartSize : Int := 2 ^ 32 - 1

/-- Go's `uint32(x)` conversion of an int64: reduction modulo 2^32. -/
def uint32OfInt (x : Int) : Nat := (x % (2 ^ 32 : Int)).toNat

/-- `FindId`-style lookup in the upload collection: first document with the
given id (ids are unique in the collection, being the MongoDB `_id`). -/
def findUpload (docs : List UploadDoc) (id : String) : Option UploadDoc :=
  docs.find? (fun d => d.id == id)

/-- `RemoveId`-style removal from the upload collection. -/
def removeDocId (docs : List UploadDoc) (id : String) : List UploadDoc :=
  docs.filter (fun d => d.id != id)

/-- Mongo update of the document with the given id (ids are unique). -/
def updateDoc (docs : List UploadDoc) (id : String) (f : UploadDoc → UploadDoc) :
    List UploadDoc :=
  docs.map (fun d => if d.id == id then f d else d)

/-- Lookup in the backing blob store. -/
def lookupBlob (blobs : List (String × List Nat)) (name : String) : Option (List Nat) :=
  (blobs.find? (fun b => b.1 == name)).map (fun b => b.2)

/-- Deletion from the backing blob store's map. -/
def removeBlobKey (blobs : List (String × List Nat)) (name : String) :
    List (String × List Nat) :=
  blobs.filter (fun b => b.1 != name)

/-- Modelled from the spec: the backing store's `put(name, stream, size,
hash)` (an external capability, outside the sources). It stores the content
under the name; its own size/hash verification is outside this module, so it
is modelled as always succeeding. -/
def putBlob (s : Store) (name : String) (content : List Nat) : Store :=
  { s with blobs := (name, content) :: removeBlobKey s.blobs name }

/-- Modelled from the spec: the backing store's `remove(name)` (an external
capability, outside the sources). Removing a name in the `failRemove` oracle
fails with an I/O error; removing an absent name fails with an
ErrNotFound-caused error; otherwise the blob is deleted. -/
def removeBlob (s : Store) (name : String) : Store × Except UploadError Unit :=
  if name ∈ s.failRemove then (s, .error (.ioError name))
  else if (lookupBlob s.blobs name).isSome then
    ({ s with blobs := removeBlobKey s.blobs name }, .ok ())
  else (s, .error .notFound)

/-- uploadPartName returns the blob name of the part with the given
uploadId and part number (`fmt.Sprintf("%s/%d", uploadId, part)`). -/
def uploadPartName (uploadId : String) (part : Nat) : String :=
  uploadId ++ "/" ++ toString part

/-- getUpload: `FindId(uploadId).One`; an unknown id yields an error with
an ErrNotFound cause. -/
def getUpload (s : Store) (uploadId : String) : Except UploadError UploadDoc :=
  match findUpload s.uploads uploadId with
  | some d => .ok d
  | none => .error .notFound

/-- copyBlob copies the named blob's contents to the hash accumulator; the
backing store's `open` is modelled from the spec as a map lookup, a missing
blob giving an ErrNotFound-caused error. -/
def copyBlob (s : Store) (name : String) : Except UploadError (List Nat) :=
  match lookupBlob s.blobs name with
  | some c => .ok c
  | none => .error .notFound

/-- The loop of checkPartSizes: `for i, p := range parts` with the check
`i != part && p != nil && p.Size < minPartSize`. -/
def checkPartsLoop : List (Option PartInfo) → Int → Int → Except UploadError Unit
  | [], _, _ => .ok ()
  | op :: rest, i, part =>
    match op with
    | some p =>
      if i ≠ part ∧ p.size < minPartSize then .error (.partTooSmall i)
      else checkPartsLoop rest (i + 1) part
    | none => checkPartsLoop rest (i + 1) part

/-- checkPartSizes checks part sizes as much as we can. The `part` argument
holds the part being uploaded, or -1 if no part is currently being uploaded
(the FinishUpload call site). -/
def checkPartSizes (parts : List (Option PartInfo)) (part : Int) (size : Int) :
    Except UploadError Unit :=
  if 0 ≤ part ∧ part < (parts.length : Int) - 1 ∧ size < minPartSize then
    .error .partTooSmallUpload
  else checkPartsLoop parts 0 part

/-- Mongo's `$set` of `parts.k`: setting an index beyond the current array
length pads the intermediate slots with nulls. -/
def setPart (parts : List (Option PartInfo)) (k : Nat) (v : PartInfo) :
    List (Option PartInfo) :=
  if k < parts.length then parts.set k (some v)
  else parts ++ List.replicate (k - parts.length) none ++ [some v]

/-- Whether the `parts.k` slot is absent or null, as tested by
initializePart's selector. -/
def partSlotFree (parts : List (Option PartInfo)) (k : Nat) : Bool :=
  match parts[k]? with
  | none => true
  | some none => true
  | some (some _) => false

/-- initializePart creates the initial (incomplete) record for a part, with
a conditional update that succeeds only if the upload is not complete (it
has no hash) and the part entry has not been created yet; a failed condition
yields the concurrent-upload error. -/
def initializePart (s : Store) (uploadId : String) (k : Nat) (hash : String)
    (size : Int) : Store × Except UploadError Unit :=
  match s.uploads.find? (fun d =>
      d.id == uploadId && d.hash == "" && partSlotFree d.parts k) with
  | some _ =>
    ({ s with uploads := (updateDoc s.uploads uploadId
        (fun d => { d with parts := setPart d.parts k ⟨hash, size, false⟩ })) },
     .ok ())
  | none => (s, .error .concurrentUpload)

/-- The tail of PutPart shared by both branches: write the part's content to
the backing store, then mark the part complete by overwriting the entire
part record via `UpdateId` (which fails if the document is gone). -/
def uploadAndComplete (s : Store) (uploadId : String) (k : Nat)
    (content : List Nat) (size : Int) (hash : String) :
    Store × Except UploadError Unit :=
  let s1 := putBlob s (uploadPartName uploadId k) content
  match findUpload s1.uploads uploadId with
  | none => (s1, .error .cannotMarkComplete)
  | some _ =>
    ({ s1 with uploads := (updateDoc s1.uploads uploadId
        (fun d => { d with parts := setPart d.parts k ⟨hash, size, true⟩ })) },
     .ok ())

/-- PutPart uploads a part to the given upload id, validating the part
number and size, loading the record, checking part sizes, then either
re-using or creating the part record before writing the blob and marking the
part complete. -/
def PutPart (s : Store) (uploadId : String) (part : Int) (content : List Nat)
    (size : Int) (hash : String) : Store × Except UploadError Unit :=
  if part < 0 then (s, .error .negativePartNumber)
  else if maxParts ≤ part then (s, .error .partNumberTooBig)
  else if size ≤ 0 then (s, .error .nonPositiveSize)
  else if maxPartSize ≤ size then (s, .error .partTooBig)
  else
    match getUpload s uploadId with
    | .error e => (s, .error e)
    | .ok udoc =>
      match checkPartSizes udoc.parts part size with
      | .error e => (s, .error e)
      | .ok () =>
        match udoc.parts[part.toNat]? with
        | some (some p) =>
          -- There's already a (possibly complete) part record stored.
          if p.hash ≠ hash then (s, .error .hashMismatchPart)
          else if p.complete then (s, .ok ())
          else uploadAndComplete s uploadId part.toNat content size hash
        | _ =>
          if udoc.hash ≠ "" then (s, .error .uploadAlreadyComplete)
          else
            match initializePart s uploadId part.toNat hash size with
            | (s1, .error e) => (s1, .error e)
            | (s1, .ok ()) => uploadAndComplete s1 uploadId part.toNat content size hash

/-- The loop of FinishUpload verifying the caller's expected parts against
the stored part records, index by index: the stored part must exist and be
complete, and its hash must equal the expected hash. The list lengths are
equal at every call site (checked just before), so the mismatched-length
case is unreachable; it is mapped to the not-uploaded error. -/
def checkExpectedParts : List Part → List (Option PartInfo) → Nat →
    Except UploadError Unit
  | [], _, _ => .ok ()
  | _ :: _, [], i => .error (.partNotUploaded i)
  | p :: rest, pu :: stored, i =>
    match pu with
    | none => .error (.partNotUploaded i)
    | some u =>
      if !u.complete then .error (.partNotUploaded i)
      else if p.hash ≠ u.hash then .error (.hashMismatchFinish i)
      else checkExpectedParts rest stored (i + 1)

/-- Reading and concatenating blobs in order through the single hash
accumulator: `for i := range udoc.Parts { copyBlob(h, name(id, i)) }`. -/
def readBlobsAcc (s : Store) : List String → Except UploadError (List Nat)
  | [] => .ok []
  | n :: rest =>
    match copyBlob s n with
    | .error e => .error e
    | .ok c =>
      match readBlobsAcc s rest with
      | .error e => .error e
      | .ok cs => .ok (c ++ cs)

/-- setUploadHash calculates the hash of a complete multipart upload
(re-using the single part's hash when there is exactly one part, otherwise
streaming every part blob in index order through one accumulator) and sets
it on the upload document via `UpdateId` - an update conditioned only on the
document's existence. If the snapshot already carries a hash, that hash is
returned with no write. `hashFn` models the SHA-384 accumulator (outside the
sources); `nilPartDeref` models the Go nil dereference on a nil single part,
unreachable from FinishUpload which checks all parts first. -/
def setUploadHash (hashFn : List Nat → String) (s : Store) (uploadId : String)
    (udoc : UploadDoc) : Store × Except UploadError String :=
  if udoc.hash ≠ "" then (s, .ok udoc.hash)
  else
    let hashRes : Except UploadError String :=
      if udoc.parts.length == 1 then
        match udoc.parts with
        | [some p] => .ok p.hash
        | _ => .error .nilPartDeref
      else
        match readBlobsAcc s ((List.range udoc.parts.length).map
            (uploadPartName uploadId)) with
        | .error e => .error e
        | .ok bytes => .ok (hashFn bytes)
    match hashRes with
    | .error e => (s, .error e)
    | .ok hash =>
      match findUpload s.uploads uploadId with
      | none => (s, .error .notFound)
      | some _ =>
        ({ s with uploads := (updateDoc s.uploads uploadId
            (fun d => { d with hash := hash })) },
         .ok hash)

/-- FinishUpload completes a multipart upload: it loads the record, requires
the expected part count to match, verifies each stored part is complete with
the expected hash, re-checks part sizes with part = -1, computes and stores
the whole-object hash, and returns the index of part sizes (each converted
to uint32) with the hash. A stored nil part is unreachable in the index
construction (every part was just checked complete). -/
def FinishUpload (hashFn : List Nat → String) (s : Store) (uploadId : String)
    (parts : List Part) :
    Store × Except UploadError (MultipartIndex × String) :=
  match getUpload s uploadId with
  | .error e => (s, .error e)
  | .ok udoc =>
    if parts.length ≠ udoc.parts.length then
      (s, .error (.partCountMismatch parts.length udoc.parts.length))
    else
      match checkExpectedParts parts udoc.parts 0 with
      | .error e => (s, .error e)
      | .ok () =>
        match checkPartSizes udoc.parts (-1) 0 with
        | .error e => (s, .error e)
        | .ok () =>
          match setUploadHash hashFn s uploadId udoc with
          | (s1, .error e) =>
            (s1, .error (if e = .notFound then .uploadExpiredOrRemoved else e))
          | (s1, .ok hash) =>
            (s1, .ok (⟨udoc.parts.map (fun op =>
                match op with
                | some p => uint32OfInt p.size
                | none => 0)⟩, hash))

/-- The blob-removal loop of removeUpload: remove each name, treating
success or an ErrNotFound cause as fine, logging any other error and keeping
the first such error as the aggregate outcome without stopping the loop. -/
def removeBlobs : Store → List String → Store × Option UploadError
  | s, [] => (s, none)
  | s, n :: rest =>
    let step := removeBlob s n
    let e : Option UploadError :=
      match step.2 with
      | .ok () => none
      | .error .notFound => none
      | .error err => some err
    let tail := removeBlobs step.1 rest
    (tail.1, match e with
             | some err => some err
             | none => tail.2)

/-- removeUpload removes the given upload record and, when the record was
still unfinished and its conditional delete (keyed on the hash field being
absent) succeeded, its part blobs; when the conditional delete loses a race
with FinishUpload, or the record was already finished, the record is removed
by an unconditional `RemoveId` and the blobs are kept. An aggregate error is
returned only when at least one blob could not be removed. -/
def removeUpload (s : Store) (udoc : UploadDoc) : Store × Except UploadError Unit :=
  if udoc.hash == "" then
    match s.uploads.find? (fun d => d.id == udoc.id && d.hash == "") with
    | some _ =>
      -- Conditional delete succeeded: removedDoc = true, remove the blobs.
      let s1 : Store := { s with uploads := removeDocId s.uploads udoc.id }
      let res := removeBlobs s1 ((List.range udoc.parts.length).map
          (uploadPartName udoc.id))
      match res.2 with
      | some _ => (res.1, .error .removeFailed)
      | none => (res.1, .ok ())
    | none =>
      -- mgo.ErrNotFound: someone called FinishUpload concurrently, so do
      -- not remove the parts; still remove the document by RemoveId.
      ({ s with uploads := removeDocId s.uploads udoc.id }, .ok ())
  else
    -- Already finished: RemoveId the document, keep the blobs.
    ({ s with uploads := removeDocId s.uploads udoc.id }, .ok ())

/-- RemoveUpload deletes all the parts associated with the given upload id;
it is a no-op if called twice on the same upload id. -/
def RemoveUpload (s : Store) (uploadId : String) : Store × Except UploadError Unit :=
  match getUpload s uploadId with
  | .error e => if e = .notFound then (s, .ok ()) else (s, .error e)
  | .ok udoc => removeUpload s udoc

/-- The sweep loop of RemoveExpiredUploads over the enumerated candidate
records: each record is removed in turn, and an error from an individual
removal is returned immediately, ending the sweep. -/
def sweepDocs : Store → List UploadDoc → Store × Except UploadError Unit
  | s, [] => (s, .ok ())
  | s, d :: rest =>
    let step := removeUpload s d
    match step.2 with
    | .error e => (step.1, .error e)
    | .ok () => sweepDocs step.1 rest

/-- RemoveExpiredUploads deletes any multipart entries that have passed
their expiry date (`expires < now`). -/
def RemoveExpiredUploads (s : Store) (now : Int) : Store × Except UploadError Unit :=
  sweepDocs s (s.uploads.filter (fun d => decide (d.expires < now)))

/-! ## Helper lemmas -/

theorem setPart_length (parts : List (Option PartInfo)) (k : Nat) (v : PartInfo) :
    (setPart parts k v).length = max parts.length (k + 1) := by
  unfold setPart
  split
  · simp only [List.length_set]
    omega
  · simp only [List.length_append, List.length_replicate, List.length_cons,
      List.length_nil]
    omega

theorem setPart_getElem_self (parts : List (Option PartInfo)) (k : Nat)
    (v : PartInfo) : (setPart parts k v)[k]? = some (some v) := by
  unfold setPart
  split
  · exact List.getElem?_set_self (by assumption)
  · rename_i h
    have hlen : (parts ++ List.replicate (k - parts.length)
        (none : Option PartInfo)).length = k := by
      simp only [List.length_append, List.length_replicate]
      omega
    rw [List.getElem?_append_right (le_of_eq hlen)]
    rw [hlen]
    simp

theorem setPart_getElem_lt (parts : List (Option PartInfo)) (k : Nat)
    (v : PartInfo) (j : Nat) (hj : j < parts.length) (hne : j ≠ k) :
    (setPart parts k v)[j]? = parts[j]? := by
  unfold setPart
  split
  · exact List.getElem?_set_ne (fun h => hne h.symm)
  · have hj2 : j < (parts ++ List.replicate (k - parts.length)
        (none : Option PartInfo)).length := by
      simp only [List.length_append, List.length_replicate]
      omega
    rw [List.getElem?_append_left hj2]
    rw [List.getElem?_append_left hj]

theorem setPart_getElem_pad (parts : List (Option PartInfo)) (k : Nat)
    (v : PartInfo) (j : Nat) (hj : parts.length ≤ j) (hne : j ≠ k) :
    (setPart parts k v)[j]? = some none ∨ (setPart parts k v)[j]? = none := by
  unfold setPart
  split
  · right
    apply List.getElem?_eq_none
    simp only [List.length_set]
    omega
  · rename_i h
    by_cases hk : j < k
    · left
      have hj2 : j < (parts ++ List.replicate (k - parts.length)
          (none : Option PartInfo)).length := by
        simp only [List.length_append, List.length_replicate]
        omega
      rw [List.getElem?_append_left hj2]
      rw [List.getElem?_append_right hj]
      rw [List.getElem?_replicate]
      simp only [if_pos (show j - parts.length < k - parts.length by omega)]
    · right
      apply List.getElem?_eq_none
      simp only [List.length_append, List.length_replicate, List.length_cons,
        List.length_nil]
      omega

theorem findUpload_updateDoc (docs : List UploadDoc) (id : String)
    (f : UploadDoc → UploadDoc) (hf : ∀ d, (f d).id = d.id) :
    findUpload (updateDoc docs id f) id = (findUpload docs id).map f := by
  induction docs with
  | nil => rfl
  | cons d rest ih =>
    unfold findUpload updateDoc at ih ⊢
    simp only [List.map_cons]
    by_cases h : d.id == id
    · rw [if_pos h]
      have h2 : ((f d).id == id) = true := by
        rw [hf d]
        exact h
      simp only [List.find?_cons, h2, h]
      rfl
    · rw [if_neg h]
      simp only [List.find?_cons, h]
      exact ih

theorem checkPartsLoop_ok_iff (parts : List (Option PartInfo)) (i part : Int) :
    checkPartsLoop parts i part = .ok () ↔
      ∀ (j : Nat) (p : PartInfo), parts[j]? = some (some p) →
        i + (j : Int) ≠ part → minPartSize ≤ p.size := by
  induction parts generalizing i with
  | nil => simp [checkPartsLoop]
  | cons op rest ih =>
    cases op with
    | none =>
      rw [checkPartsLoop, ih]
      constructor
      · intro h j p hj hne
        cases j with
        | zero => simp at hj
        | succ j' =>
          refine h j' p (by simpa using hj) ?_
          push_cast at hne ⊢
          omega
      · intro h j p hj hne
        refine h (j + 1) p (by simpa using hj) ?_
        push_cast at hne ⊢
        omega
    | some p0 =>
      rw [checkPartsLoop]
      split
      · rename_i hc
        constructor
        · intro h
          exact absurd h (by simp)
        · intro h
          have := h 0 p0 (by simp) (by simpa using hc.1)
          omega
      · rename_i hc
        rw [ih]
        constructor
        · intro h j p hj hne
          cases j with
          | zero =>
            simp only [List.getElem?_cons_zero, Option.some.injEq] at hj
            cases hj
            rcases Decidable.not_and_iff_or_not.mp hc with h1 | h2
            · simp only [ne_eq, not_not] at h1
              exact absurd (by simpa using h1) hne
            · omega
          | succ j' =>
            refine h j' p (by simpa using hj) ?_
            push_cast at hne ⊢
            omega
        · intro h j p hj hne
          refine h (j + 1) p (by simpa using hj) ?_
          push_cast at hne ⊢
          omega

theorem checkPartSizes_ok_iff (parts : List (Option PartInfo)) (part size : Int) :
    checkPartSizes parts part size = .ok () ↔
      ¬(0 ≤ part ∧ part < (parts.length : Int) - 1 ∧ size < minPartSize) ∧
      ∀ (j : Nat) (p : PartInfo), parts[j]? = some (some p) →
        (j : Int) ≠ part → minPartSize ≤ p.size := by
  unfold checkPartSizes
  split
  · rename_i h
    constructor
    · intro hh
      exact absurd hh (by simp)
    · intro hh
      exact absurd h hh.1
  · rename_i h
    rw [checkPartsLoop_ok_iff]
    simp only [zero_add]
    exact ⟨fun hh => ⟨h, hh⟩, fun hh => hh.2⟩

/-- The finish-time per-index verification succeeds when every expected part
lines up with a stored part that exists, is complete, and has the expected
hash. -/
theorem checkExpectedParts_ok (expected : List Part)
    (stored : List (Option PartInfo)) (i : Nat)
    (h : List.Forall₂ (fun (q : Part) (op : Option PartInfo) =>
        ∃ u, op = some u ∧ u.complete = true ∧ q.hash = u.hash)
      expected stored) :
    checkExpectedParts expected stored i = .ok () := by
  induction h generalizing i with
  | nil => rfl
  | cons hh _ ih =>
    obtain ⟨u, rfl, hc, hhash⟩ := hh
    rw [checkExpectedParts]
    simp only [hc, hhash, Bool.not_true, Bool.false_eq_true, if_false, ne_eq,
      not_true_eq_false, if_false, not_false_eq_true, if_neg]
    exact ih (i + 1)

/-- The blob-accumulation loop of setUploadHash returns the concatenation,
in order, of the named blobs' contents when all are present. -/
theorem readBlobsAcc_ok (s : Store) (names : List String) (f : String → List Nat)
    (h : ∀ nm ∈ names, lookupBlob s.blobs nm = some (f nm)) :
    readBlobsAcc s names = .ok ((names.map f).flatten) := by
  induction names with
  | nil => rfl
  | cons n rest ih =>
    rw [readBlobsAcc]
    unfold copyBlob
    rw [h n (by simp)]
    rw [ih (fun nm hm => h nm (by simp [hm]))]
    simp

theorem removeBlob_uploads (s : Store) (n : String) :
    (removeBlob s n).1.uploads = s.uploads := by
  unfold removeBlob
  split
  · rfl
  · split
    · rfl
    · rfl

theorem removeBlob_failRemove (s : Store) (n : String) :
    (removeBlob s n).1.failRemove = s.failRemove := by
  unfold removeBlob
  split
  · rfl
  · split
    · rfl
    · rfl

theorem removeBlobs_uploads (s : Store) (names : List String) :
    (removeBlobs s names).1.uploads = s.uploads := by
  induction names generalizing s with
  | nil => rfl
  | cons n rest ih =>
    rw [removeBlobs]
    simp only []
    rw [ih]
    exact removeBlob_uploads s n

theorem removeBlobs_failRemove (s : Store) (names : List String) :
    (removeBlobs s names).1.failRemove = s.failRemove := by
  induction names generalizing s with
  | nil => rfl
  | cons n rest ih =>
    rw [removeBlobs]
    simp only []
    rw [ih]
    exact removeBlob_failRemove s n

/-- The blob-removal loop aggregates no error exactly when no name hits the
backing store's removal-failure oracle: a success or an already-absent blob
is tolerated. -/
theorem removeBlobs_none_iff (s : Store) (names : List String) :
    (removeBlobs s names).2 = none ↔ ∀ n ∈ names, n ∉ s.failRemove := by
  induction names generalizing s with
  | nil => simp [removeBlobs]
  | cons n rest ih =>
    rw [removeBlobs]
    by_cases hf : n ∈ s.failRemove
    · simp only [removeBlob, if_pos hf]
      simp [hf]
    · have hstep : ((removeBlob s n).2 = .ok ()) ∨ ((removeBlob s n).2 = .error .notFound) := by
        unfold removeBlob
        rw [if_neg hf]
        split
        · left
          rfl
        · right
          rfl
      have hfr : (removeBlob s n).1.failRemove = s.failRemove :=
        removeBlob_failRemove s n
      rcases hstep with hstep | hstep
      · simp only [hstep]
        rw [ih]
        rw [hfr]
        simp [hf]
      · simp only [hstep]
        rw [ih]
        rw [hfr]
        simp [hf]

theorem lookupBlob_removeBlobKey_self (blobs : List (String × List Nat))
    (n : String) : lookupBlob (removeBlobKey blobs n) n = none := by
  unfold lookupBlob removeBlobKey
  have hfind : List.find? (fun b => b.1 == n)
      (List.filter (fun b => b.1 != n) blobs) = none := by
    apply List.find?_eq_none.mpr
    intro x hx
    have hq := (List.mem_filter.mp hx).2
    simp only [bne_iff_ne, ne_eq] at hq
    simp [hq]
  rw [hfind]
  rfl

theorem lookupBlob_removeBlobKey_none (blobs : List (String × List Nat))
    (m n : String) (h : lookupBlob blobs n = none) :
    lookupBlob (removeBlobKey blobs m) n = none := by
  unfold lookupBlob at h
  unfold lookupBlob removeBlobKey
  cases hfind : List.find? (fun b => b.1 == n) blobs with
  | some x =>
    rw [hfind] at h
    simp at h
  | none =>
    have hfind2 : List.find? (fun b => b.1 == n)
        (List.filter (fun b => b.1 != m) blobs) = none := by
      apply List.find?_eq_none.mpr
      intro x hx
      exact List.find?_eq_none.mp hfind x (List.mem_filter.mp hx).1
    rw [hfind2]
    rfl

theorem removeBlob_lookup_none (s : Store) (m n : String)
    (h : lookupBlob s.blobs n = none) :
    lookupBlob (removeBlob s m).1.blobs n = none := by
  unfold removeBlob
  split
  · exact h
  · split
    · exact lookupBlob_removeBlobKey_none s.blobs m n h
    · exact h

theorem removeBlob_lookup_self (s : Store) (n : String) (hf : n ∉ s.failRemove) :
    lookupBlob (removeBlob s n).1.blobs n = none := by
  unfold removeBlob
  rw [if_neg hf]
  split
  · exact lookupBlob_removeBlobKey_self s.blobs n
  · rename_i h
    exact Option.not_isSome_iff_eq_none.mp h

theorem removeBlobs_lookup_none (s : Store) (names : List String) (n : String)
    (h : lookupBlob s.blobs n = none) :
    lookupBlob (removeBlobs s names).1.blobs n = none := by
  induction names generalizing s with
  | nil => exact h
  | cons m rest ih =>
    rw [removeBlobs]
    simp only []
    exact ih _ (removeBlob_lookup_none s m n h)

/-- After the blob-removal loop, every listed name that does not hit the
removal-failure oracle is absent from the backing store (removed, or
tolerated as already absent). -/
theorem removeBlobs_lookup_removed (s : Store) (names : List String)
    (n : String) (hn : n ∈ names) (hf : n ∉ s.failRemove) :
    lookupBlob (removeBlobs s names).1.blobs n = none := by
  induction names generalizing s with
  | nil => cases hn
  | cons m rest ih =>
    rw [removeBlobs]
    simp only []
    rcases List.mem_cons.mp hn with rfl | hn'
    · exact removeBlobs_lookup_none _ rest n (removeBlob_lookup_self s n hf)
    · refine ih _ hn' ?_
      rw [removeBlob_failRemove]
      exact hf

theorem getUpload_ok_iff (s : Store) (uploadId : String) (udoc : UploadDoc) :
    getUpload s uploadId = .ok udoc ↔ findUpload s.uploads uploadId = some udoc := by
  unfold getUpload
  cases h : findUpload s.uploads uploadId
  · simp
  · simp

theorem putBlob_uploads (s : Store) (n : String) (c : List Nat) :
    (putBlob s n c).uploads = s.uploads := rfl

theorem updateDoc_updateDoc (docs : List UploadDoc) (id : String)
    (f g : UploadDoc → UploadDoc) (hf : ∀ d, (f d).id = d.id) :
    updateDoc (updateDoc docs id f) id g = updateDoc docs id (fun d => g (f d)) := by
  unfold updateDoc
  rw [List.map_map]
  apply List.map_congr_left
  intro d _
  by_cases h : d.id == id
  · simp only [Function.comp_apply, if_pos h]
    rw [if_pos (by rw [hf d]; exact h)]
  · simp only [Function.comp_apply, if_neg h]

theorem setPart_setPart_length (parts : List (Option PartInfo)) (k : Nat)
    (v1 v2 : PartInfo) :
    (setPart (setPart parts k v1) k v2).length = max parts.length (k + 1) := by
  rw [setPart_length, setPart_length]
  omega

theorem setPart_setPart_getElem_lt (parts : List (Option PartInfo)) (k : Nat)
    (v1 v2 : PartInfo) (j : Nat) (hj : j < parts.length) (hne : j ≠ k) :
    (setPart (setPart parts k v1) k v2)[j]? = parts[j]? := by
  rw [setPart_getElem_lt _ _ _ j (by rw [setPart_length]; omega) hne]
  exact setPart_getElem_lt parts k v1 j hj hne

theorem setPart_setPart_getElem_pad (parts : List (Option PartInfo)) (k : Nat)
    (v1 v2 : PartInfo) (j : Nat) (hj : parts.length ≤ j) (hne : j ≠ k) :
    (setPart (setPart parts k v1) k v2)[j]? = some none ∨
      (setPart (setPart parts k v1) k v2)[j]? = none := by
  by_cases hlt : j < (setPart parts k v1).length
  · rw [setPart_getElem_lt _ _ _ j hlt hne]
    exact setPart_getElem_pad parts k v1 j hj hne
  · exact setPart_getElem_pad _ _ _ j (le_of_not_lt hlt) hne

/-- Re-running checkPartSizes after the slot at `part` has been overwritten
(and the list possibly extended with null padding) still succeeds: the check
ignores the slot being uploaded and null slots. -/
theorem checkPartSizes_preserved (parts newParts : List (Option PartInfo))
    (part size : Int) (hpos : 0 ≤ part)
    (hlen : newParts.length = max parts.length (part.toNat + 1))
    (hoff : ∀ j : Nat, j ≠ part.toNat → j < parts.length →
      newParts[j]? = parts[j]?)
    (hpad : ∀ j : Nat, j ≠ part.toNat → parts.length ≤ j →
      newParts[j]? = some none ∨ newParts[j]? = none)
    (hok : checkPartSizes parts part size = .ok ()) :
    checkPartSizes newParts part size = .ok () := by
  rw [checkPartSizes_ok_iff] at hok ⊢
  obtain ⟨h1, h2⟩ := hok
  constructor
  · intro hcon
    apply h1
    refine ⟨hpos, ?_, hcon.2.2⟩
    have hc2 := hcon.2.1
    rw [hlen] at hc2
    rcases Nat.le_total parts.length (part.toNat + 1) with hm | hm
    · rw [Nat.max_eq_right hm] at hc2
      omega
    · rw [Nat.max_eq_left hm] at hc2
      omega
  · intro j p hj hne
    have hjk : j ≠ part.toNat := by omega
    by_cases hlt : j < parts.length
    · rw [hoff j hjk hlt] at hj
      exact h2 j p hj hne
    · rcases hpad j hjk (le_of_not_lt hlt) with h | h
      · rw [h] at hj
        cases hj
      · rw [h] at hj
        cases hj

/-- Membership in a part list after a mongo `parts.k` set. -/
theorem mem_setPart (parts : List (Option PartInfo)) (k : Nat) (v : PartInfo)
    (op : Option PartInfo) (h : op ∈ setPart parts k v) :
    op ∈ parts ∨ op = some v ∨ op = none := by
  unfold setPart at h
  split at h
  · rcases List.mem_or_eq_of_mem_set h with h | h
    · exact Or.inl h
    · exact Or.inr (Or.inl h)
  · rcases List.mem_append.mp h with h | h
    · rcases List.mem_append.mp h with h | h
      · exact Or.inl h
      · exact Or.inr (Or.inr (List.eq_of_mem_replicate h))
    · exact Or.inr (Or.inl (by simpa using h))

/-- The blob-write-and-mark-complete tail of PutPart, evaluated when the
upload document exists: it writes the blob and overwrites the part record
with a complete one. -/
theorem uploadAndComplete_ok (s : Store) (uploadId : String) (k : Nat)
    (content : List Nat) (size : Int) (hash : String) (udoc : UploadDoc)
    (hget : findUpload s.uploads uploadId = some udoc) :
    uploadAndComplete s uploadId k content size hash =
      ({ uploads := (updateDoc s.uploads uploadId
          (fun d => { d with parts := setPart d.parts k ⟨hash, size, true⟩ })),
         blobs := (uploadPartName uploadId k, content) ::
           removeBlobKey s.blobs (uploadPartName uploadId k),
         failRemove := s.failRemove }, .ok ()) := by
  unfold uploadAndComplete
  simp only []
  have h2 : findUpload (putBlob s (uploadPartName uploadId k) content).uploads
      uploadId = some udoc := by
    rw [putBlob_uploads]
    exact hget
  rw [h2]
  rfl

/-- Running PutPart against a state whose part record at the target index is
already complete with the same hash: a successful no-op. -/
theorem putPart_complete_noop (s : Store) (uploadId : String) (part : Int)
    (content : List Nat) (size : Int) (hash : String) (udoc : UploadDoc)
    (p : PartInfo)
    (h0 : ¬part < 0) (h1 : ¬maxParts ≤ part) (h2 : ¬size ≤ 0)
    (h3 : ¬maxPartSize ≤ size)
    (hget : findUpload s.uploads uploadId = some udoc)
    (hcheck : checkPartSizes udoc.parts part size = .ok ())
    (hk : udoc.parts[part.toNat]? = some (some p))
    (hhash : p.hash = hash) (hcomp : p.complete = true) :
    PutPart s uploadId part content size hash = (s, .ok ()) := by
  unfold PutPart
  rw [if_neg h0, if_neg h1, if_neg h2, if_neg h3]
  rw [(getUpload_ok_iff s uploadId udoc).mpr hget]
  simp only []
  rw [hcheck]
  simp only []
  rw [hk]
  simp only []
  rw [if_neg (by simp [hhash]), if_pos hcomp]

/-! ## Claim theorems -/

/-- Claim C1. The claim states that for an upload whose parts were all
uploaded completely with valid sizes (per the data-model invariant, every
part except the last at least `minPartSize`), FinishUpload succeeds iff the
expected-part hash list matches the stored records exactly. The code
violates this: at finish time `checkPartSizes` is called with part = -1 and
its loop then checks every stored part - including the last - against
`minPartSize`, so FinishUpload rejects an upload with a small last part even
though the expected hashes match the stored records exactly (the code's own
per-index check `checkExpectedParts` succeeds). This evaluation runs the
spec's own end-to-end example `[5242880, 1024]`. -/
theorem finishUpload_fails_despite_exact_hash_match :
    (checkExpectedParts [⟨"h0"⟩, ⟨"h1"⟩]
      [some ⟨"h0", 5242880, true⟩, some ⟨"h1", 1024, true⟩] 0 = .ok ()) ∧
    minPartSize ≤ 5242880 ∧
    ((FinishUpload (fun _ => "X")
        ⟨[⟨"u1", "", 0, [some ⟨"h0", 5242880, true⟩, some ⟨"h1", 1024, true⟩]⟩],
         [], []⟩
        "u1" [⟨"h0"⟩, ⟨"h1"⟩]).2 = .error (.partTooSmall 1)) :=
  ⟨rfl, by decide, rfl⟩

/-- Claim C6. The claim (and the code's own comment on checkPartSizes: the
last part is allowed to be small) says the last part is exempt from the
minimum size at finish time. The code is wrong: the loop of checkPartSizes
does not exempt the last index when called with part = -1 from FinishUpload,
so the spec's end-to-end example - part 0 of 5242880 bytes, then a last part
of 1024 bytes, both accepted by PutPart - is rejected at finish with the
part-too-small Validation error naming the last part. -/
theorem finishUpload_rejects_small_last_part :
    ((PutPart ⟨[⟨"u1", "", 0, []⟩], [], []⟩ "u1" 0 [7] 5242880 "h0").2
      = .ok ()) ∧
    ((PutPart (PutPart ⟨[⟨"u1", "", 0, []⟩], [], []⟩ "u1" 0 [7] 5242880 "h0").1
        "u1" 1 [8] 1024 "h1").2 = .ok ()) ∧
    ((FinishUpload (fun _ => "X")
        (PutPart (PutPart ⟨[⟨"u1", "", 0, []⟩], [], []⟩ "u1" 0 [7] 5242880 "h0").1
          "u1" 1 [8] 1024 "h1").1
        "u1" [⟨"h0"⟩, ⟨"h1"⟩]).2 = .error (.partTooSmall 1)) ∧
    (UploadError.partTooSmall 1).isValidation = true :=
  ⟨rfl, rfl, rfl, rfl⟩

/-- Claim C2, counterexample. The claim says the hash is set by a
conditional write that succeeds only if the hash is currently unset. In the
code the write is a plain `UpdateId` conditioned only on the document's
existence: here the stored record's hash is "zzz" (set), the snapshot read
earlier has it unset, and setUploadHash still succeeds, overwriting "zzz"
with the computed hash. -/
theorem setUploadHash_overwrites_concurrent_hash :
    ((findUpload [⟨"u", "zzz", 0, [some ⟨"h0", 6000000, true⟩]⟩] "u").map
      UploadDoc.hash = some "zzz") ∧
    (setUploadHash (fun _ => "Q")
        ⟨[⟨"u", "zzz", 0, [some ⟨"h0", 6000000, true⟩]⟩], [], []⟩ "u"
        ⟨"u", "", 0, [some ⟨"h0", 6000000, true⟩]⟩
      = (⟨[⟨"u", "h0", 0, [some ⟨"h0", 6000000, true⟩]⟩], [], []⟩, .ok "h0")) :=
  ⟨rfl, rfl⟩

/-- Claim C2, amended. What the code does: if the snapshot read at the start
of FinishUpload already carries a hash, the existing hash is returned with
no write and no error (idempotent finish); otherwise the computed hash
(shown here in the single-part case, where it is the part's hash) is written
by an update conditioned only on the record's existence, regardless of the
hash currently stored. -/
theorem setUploadHash_snapshot_conditional (hashFn : List Nat → String)
    (s : Store) (uploadId : String) (udoc : UploadDoc) :
    (udoc.hash ≠ "" → setUploadHash hashFn s uploadId udoc = (s, .ok udoc.hash)) ∧
    (∀ p d, udoc.hash = "" → udoc.parts = [some p] →
      findUpload s.uploads uploadId = some d →
      setUploadHash hashFn s uploadId udoc =
        ({ s with uploads := (updateDoc s.uploads uploadId
            (fun d' => { d' with hash := p.hash })) }, .ok p.hash)) := by
  constructor
  · intro h
    unfold setUploadHash
    rw [if_pos h]
  · intro p d hh hparts hfind
    unfold setUploadHash
    rw [if_neg (by simp [hh])]
    rw [hparts, hfind]
    rfl

/-- Witness for the amended C2 theorem at concrete inputs. -/
theorem setUploadHash_snapshot_conditional_witness :
    (setUploadHash (fun _ => "W") ⟨[], [], []⟩ "u" ⟨"u", "x", 0, []⟩
      = (⟨[], [], []⟩, .ok "x")) ∧
    (setUploadHash (fun _ => "W")
        ⟨[⟨"u", "other", 0, []⟩], [], []⟩ "u"
        ⟨"u", "", 0, [some ⟨"h", 6000000, true⟩]⟩
      = (⟨[⟨"u", "h", 0, []⟩], [], []⟩, .ok "h")) :=
  ⟨(setUploadHash_snapshot_conditional (fun _ => "W") ⟨[], [], []⟩ "u"
      ⟨"u", "x", 0, []⟩).1 (by decide),
   (setUploadHash_snapshot_conditional (fun _ => "W")
      ⟨[⟨"u", "other", 0, []⟩], [], []⟩ "u"
      ⟨"u", "", 0, [some ⟨"h", 6000000, true⟩]⟩).2
      ⟨"h", 6000000, true⟩ ⟨"u", "other", 0, []⟩ rfl rfl rfl⟩

/-- Claim C3, counterexample. Two records ("a" then "b") are both expired;
removing "a" fails (its part blob hits the backing store's removal-failure
oracle), and the sweep returns that error immediately: record "b" is still
present afterwards, so the sweep did abort instead of aggregating and
continuing. -/
theorem sweep_aborts_counterexample :
    ((RemoveExpiredUploads
        ⟨[⟨"a", "", 0, [some ⟨"h", 6000000, true⟩]⟩, ⟨"b", "", 0, []⟩],
         [("a/0", [1])], ["a/0"]⟩ 10).2 = .error .removeFailed) ∧
    ((RemoveExpiredUploads
        ⟨[⟨"a", "", 0, [some ⟨"h", 6000000, true⟩]⟩, ⟨"b", "", 0, []⟩],
         [("a/0", [1])], ["a/0"]⟩ 10).1.uploads = [⟨"b", "", 0, []⟩]) :=
  ⟨rfl, rfl⟩

/-- Claim C3, amended. What the code does: an error from an individual
per-record removal is returned immediately and aborts the sweep - the
remaining candidate records are left untouched (the resulting state is
exactly the state after the failing record's own removal attempt; blob
failures are aggregated only inside that single record's removal). -/
theorem sweep_aborts_on_record_failure (s : Store) (now : Int)
    (d : UploadDoc) (rest : List UploadDoc) (e : UploadError)
    (hdocs : s.uploads.filter (fun d' => decide (d'.expires < now)) = d :: rest)
    (herr : (removeUpload s d).2 = .error e) :
    RemoveExpiredUploads s now = ((removeUpload s d).1, .error e) := by
  unfold RemoveExpiredUploads
  rw [hdocs]
  rw [sweepDocs]
  simp only [herr]

/-- Witness for the amended C3 theorem at concrete inputs. -/
theorem sweep_aborts_on_record_failure_witness :
    RemoveExpiredUploads
        ⟨[⟨"a", "", 0, [some ⟨"h", 6000000, true⟩]⟩, ⟨"c", "", 0, []⟩],
         [("a/0", [2])], ["a/0"]⟩ 10
      = (⟨[⟨"c", "", 0, []⟩], [("a/0", [2])], ["a/0"]⟩, .error .removeFailed) :=
  sweep_aborts_on_record_failure _ 10 ⟨"a", "", 0, [some ⟨"h", 6000000, true⟩]⟩
    [⟨"c", "", 0, []⟩] .removeFailed rfl rfl

/-- Claim C4, counterexample. The claim says the metadata record is deleted
only by the conditional delete that requires the hash to still be absent at
delete time. In the code, when the conditional delete loses the race (the
stored record's hash is "zz"), the record is still deleted - by the
unconditional `RemoveId` fallback - although its hash was present; the part
blobs are kept. -/
theorem removeUpload_unconditional_removeid_counterexample :
    ((findUpload [⟨"u", "zz", 0, [some ⟨"h0", 6000000, true⟩]⟩] "u").map
      UploadDoc.hash = some "zz") ∧
    (removeUpload ⟨[⟨"u", "zz", 0, [some ⟨"h0", 6000000, true⟩]⟩],
        [("u/0", [1])], []⟩ ⟨"u", "", 0, [some ⟨"h0", 6000000, true⟩]⟩
      = (⟨[], [("u/0", [1])], []⟩, .ok ())) :=
  ⟨rfl, rfl⟩

/-- Claim C4, amended. What the code does on a removal of an upload that was
unfinished when read: it attempts the conditional delete (which succeeds
only if the hash is still absent at delete time); when every record stored
under the id has meanwhile been finalized (hash present), the conditional
delete loses, the metadata record is still removed by the unconditional
`RemoveId`, and - the heart of the claim - the part blobs are not removed
and no error is reported: a concurrently finalized upload's data is never
destructively removed. -/
theorem removeUpload_lost_race_keeps_blobs (s : Store) (udoc : UploadDoc)
    (hsnap : udoc.hash = "")
    (hcur : ∀ d ∈ s.uploads, d.id = udoc.id → d.hash ≠ "") :
    removeUpload s udoc =
      ({ s with uploads := removeDocId s.uploads udoc.id }, .ok ()) := by
  unfold removeUpload
  rw [if_pos (by simp [hsnap])]
  have hfind : s.uploads.find? (fun d => d.id == udoc.id && d.hash == "") = none := by
    apply List.find?_eq_none.mpr
    intro d hd
    simp only [Bool.and_eq_true, beq_iff_eq, not_and]
    intro h1 h2
    exact hcur d hd h1 h2
  rw [hfind]

/-- Witness for the amended C4 theorem at concrete inputs. -/
theorem removeUpload_lost_race_keeps_blobs_witness :
    removeUpload ⟨[⟨"v", "done", 0, [some ⟨"h0", 6000000, true⟩]⟩],
        [("v/0", [3])], []⟩ ⟨"v", "", 0, [some ⟨"h0", 6000000, true⟩]⟩
      = (⟨[], [("v/0", [3])], []⟩, .ok ()) :=
  removeUpload_lost_race_keeps_blobs
    ⟨[⟨"v", "done", 0, [some ⟨"h0", 6000000, true⟩]⟩], [("v/0", [3])], []⟩
    ⟨"v", "", 0, [some ⟨"h0", 6000000, true⟩]⟩ rfl
    (by decide)

/-- Claim C5, counterexample. The claim says that whenever the metadata
record was deleted, or the record was already finished (hash present), every
indexed part's blob is removed. In the code a record that is already
finished is removed by `RemoveId` but `removeParts` stays false, so its
part blobs are kept: here the record (hash "zz") is deleted yet the indexed
part blob "u/0" is still present afterwards. -/
theorem removeUpload_finished_record_keeps_blobs :
    (removeUpload ⟨[⟨"u", "zz", 0, [some ⟨"h0", 6000000, true⟩]⟩],
        [("u/0", [1])], []⟩ ⟨"u", "zz", 0, [some ⟨"h0", 6000000, true⟩]⟩
      = (⟨[], [("u/0", [1])], []⟩, .ok ())) ∧
    (lookupBlob [("u/0", [1])] (uploadPartName "u" 0) = some [1]) :=
  ⟨rfl, rfl⟩

/-- Claim C5, amended. What the code does: part blobs are removed exactly
when the record was still unfinished and the conditional delete of the
metadata record (requiring the hash to be absent) succeeded. In that case
every indexed part's blob that does not hit the backing store's
removal-failure oracle ends up absent (an already-absent blob is tolerated
as success), the loop is not aborted by individual failures, and the
aggregate error is returned iff at least one blob could not be removed. A
record whose conditional delete lost, or that was already finished, keeps
its blobs. -/
theorem removeUpload_blob_cleanup (s : Store) (udoc : UploadDoc)
    (hsnap : udoc.hash = "")
    (hcond : s.uploads.find? (fun d => d.id == udoc.id && d.hash == "") ≠ none) :
    ((removeUpload s udoc).1.uploads = removeDocId s.uploads udoc.id) ∧
    ((removeUpload s udoc).2 = .ok () ↔
      ∀ i < udoc.parts.length, uploadPartName udoc.id i ∉ s.failRemove) ∧
    (∀ i < udoc.parts.length, uploadPartName udoc.id i ∉ s.failRemove →
      lookupBlob (removeUpload s udoc).1.blobs (uploadPartName udoc.id i)
        = none) := by
  unfold removeUpload
  rw [if_pos (by simp [hsnap])]
  obtain ⟨d0, hfind⟩ := Option.ne_none_iff_exists'.mp hcond
  rw [hfind]
  simp only []
  have hmem : ∀ i < udoc.parts.length, uploadPartName udoc.id i ∈
      (List.range udoc.parts.length).map (uploadPartName udoc.id) := by
    intro i hi
    exact List.mem_map_of_mem _ (List.mem_range.mpr hi)
  rcases hp : removeBlobs { s with uploads := removeDocId s.uploads udoc.id }
      ((List.range udoc.parts.length).map (uploadPartName udoc.id)) with ⟨s2, r2⟩
  have hs2u : s2.uploads = removeDocId s.uploads udoc.id := by
    have h0 := removeBlobs_uploads
      { s with uploads := removeDocId s.uploads udoc.id }
      ((List.range udoc.parts.length).map (uploadPartName udoc.id))
    rw [hp] at h0
    exact h0
  have hnone_iff : r2 = none ↔
      ∀ n ∈ (List.range udoc.parts.length).map (uploadPartName udoc.id),
        n ∉ s.failRemove := by
    have h0 := removeBlobs_none_iff
      { s with uploads := removeDocId s.uploads udoc.id }
      ((List.range udoc.parts.length).map (uploadPartName udoc.id))
    rw [hp] at h0
    exact h0
  have hlook : ∀ i < udoc.parts.length, uploadPartName udoc.id i ∉ s.failRemove →
      lookupBlob s2.blobs (uploadPartName udoc.id i) = none := by
    intro i hi hf
    have h0 := removeBlobs_lookup_removed
      { s with uploads := removeDocId s.uploads udoc.id }
      ((List.range udoc.parts.length).map (uploadPartName udoc.id))
      (uploadPartName udoc.id i) (hmem i hi) hf
    rw [hp] at h0
    exact h0
  cases r2 with
  | some e =>
    refine ⟨hs2u, ?_, ?_⟩
    · constructor
      · intro h
        exact absurd h (by simp)
      · intro h
        have hcontra : (some e : Option UploadError) = none := by
          apply hnone_iff.mpr
          intro n hn
          obtain ⟨i, hi, rfl⟩ : ∃ i, i < udoc.parts.length ∧
              uploadPartName udoc.id i = n := by
            simpa using hn
          exact h i hi
        cases hcontra
    · intro i hi hf
      exact hlook i hi hf
  | none =>
    refine ⟨hs2u, ?_, ?_⟩
    · constructor
      · intro _ i hi
        exact hnone_iff.mp rfl _ (hmem i hi)
      · intro _
        rfl
    · intro i hi hf
      exact hlook i hi hf

/-- Witness for the amended C5 theorem at concrete inputs. -/
theorem removeUpload_blob_cleanup_witness :
    ((removeUpload ⟨[⟨"w", "", 0, [some ⟨"h0", 6000000, true⟩]⟩],
        [("w/0", [4])], []⟩ ⟨"w", "", 0, [some ⟨"h0", 6000000, true⟩]⟩).1.uploads
      = removeDocId [⟨"w", "", 0, [some ⟨"h0", 6000000, true⟩]⟩] "w") ∧
    ((removeUpload ⟨[⟨"w", "", 0, [some ⟨"h0", 6000000, true⟩]⟩],
        [("w/0", [4])], []⟩ ⟨"w", "", 0, [some ⟨"h0", 6000000, true⟩]⟩).2 = .ok () ↔
      ∀ i < (⟨"w", "", 0, [some ⟨"h0", 6000000, true⟩]⟩ : UploadDoc).parts.length,
        uploadPartName "w" i ∉ ([] : List String)) ∧
    (∀ i < (⟨"w", "", 0, [some ⟨"h0", 6000000, true⟩]⟩ : UploadDoc).parts.length,
      uploadPartName "w" i ∉ ([] : List String) →
      lookupBlob (removeUpload ⟨[⟨"w", "", 0, [some ⟨"h0", 6000000, true⟩]⟩],
          [("w/0", [4])], []⟩
          ⟨"w", "", 0, [some ⟨"h0", 6000000, true⟩]⟩).1.blobs (uploadPartName "w" i)
        = none) :=
  removeUpload_blob_cleanup
    ⟨[⟨"w", "", 0, [some ⟨"h0", 6000000, true⟩]⟩], [("w/0", [4])], []⟩
    ⟨"w", "", 0, [some ⟨"h0", 6000000, true⟩]⟩ rfl (by decide)

/-- Claim C7. PutPart is idempotent: repeating a successful PutPart call
with identical arguments, immediately against the state that call produced,
is a successful no-op that leaves the whole state - in particular the part
record - unchanged. (The repeat either finds the part record complete with
the matching hash and returns early, or the original call had already left
it in exactly that state.) -/
theorem putPart_idempotent (s s' : Store) (uploadId : String) (part : Int)
    (content : List Nat) (size : Int) (hash : String)
    (h : PutPart s uploadId part content size hash = (s', .ok ())) :
    PutPart s' uploadId part content size hash = (s', .ok ()) := by
  unfold PutPart at h
  split at h
  · simp at h
  rename_i h0
  split at h
  · simp at h
  rename_i h1
  split at h
  · simp at h
  rename_i h2
  split at h
  · simp at h
  rename_i h3
  split at h
  · simp at h
  rename_i udoc hget0
  have hget : findUpload s.uploads uploadId = some udoc :=
    (getUpload_ok_iff s uploadId udoc).mp hget0
  split at h
  · simp at h
  rename_i hcheck
  split at h
  · -- part record already stored
    rename_i p hk
    split at h
    · simp at h
    rename_i hhash
    split at h
    · -- already complete: no-op, s' = s
      rename_i hcomp
      have hss : s = s' := by
        simpa using congrArg Prod.fst h
      subst hss
      exact putPart_complete_noop s uploadId part content size hash udoc p
        h0 h1 h2 h3 hget hcheck hk (not_ne_iff.mp hhash) hcomp
    · -- incomplete record with matching hash: re-upload then mark complete
      rename_i hcomp
      rw [uploadAndComplete_ok s uploadId part.toNat content size hash udoc hget] at h
      have hs' := congrArg Prod.fst h
      simp only [] at hs'
      subst hs'
      apply putPart_complete_noop _ uploadId part content size hash
        { udoc with parts := setPart udoc.parts part.toNat ⟨hash, size, true⟩ }
        ⟨hash, size, true⟩ h0 h1 h2 h3
      · show findUpload (updateDoc s.uploads uploadId
          (fun d => { d with parts := setPart d.parts part.toNat ⟨hash, size, true⟩ }))
          uploadId = _
        rw [findUpload_updateDoc s.uploads uploadId
          (fun d => { d with parts := setPart d.parts part.toNat ⟨hash, size, true⟩ })
          (fun d => rfl), hget]
        rfl
      · apply checkPartSizes_preserved udoc.parts _ part size (by omega)
        · rw [setPart_length]
        · intro j hj hlt
          exact setPart_getElem_lt udoc.parts part.toNat _ j hlt hj
        · intro j hj hge
          exact setPart_getElem_pad udoc.parts part.toNat _ j hge hj
        · exact hcheck
      · exact setPart_getElem_self udoc.parts part.toNat _
      · rfl
      · rfl
  · -- no part record yet
    rename_i hk
    split at h
    · simp at h
    rename_i hudochash
    split at h
    · simp at h
    rename_i s1 hini
    unfold initializePart at hini
    split at hini
    · -- the conditional initial-record write succeeded
      have hs1 := congrArg Prod.fst hini
      simp only [] at hs1
      subst hs1
      have hget1 : findUpload (updateDoc s.uploads uploadId
          (fun d => { d with parts := setPart d.parts part.toNat ⟨hash, size, false⟩ }))
          uploadId
          = some { udoc with parts := setPart udoc.parts part.toNat ⟨hash, size, false⟩ } := by
        rw [findUpload_updateDoc s.uploads uploadId
          (fun d => { d with parts := setPart d.parts part.toNat ⟨hash, size, false⟩ })
          (fun d => rfl), hget]
        rfl
      rw [uploadAndComplete_ok _ uploadId part.toNat content size hash
        { udoc with parts := setPart udoc.parts part.toNat ⟨hash, size, false⟩ } hget1] at h
      have hs2 := congrArg Prod.fst h
      simp only [] at hs2
      subst hs2
      apply putPart_complete_noop _ uploadId part content size hash
        { udoc with parts := setPart (setPart udoc.parts part.toNat ⟨hash, size, false⟩) part.toNat ⟨hash, size, true⟩ }
        ⟨hash, size, true⟩ h0 h1 h2 h3
      · show findUpload (updateDoc (updateDoc s.uploads uploadId
          (fun d => { d with parts := setPart d.parts part.toNat ⟨hash, size, false⟩ }))
          uploadId
          (fun d => { d with parts := setPart d.parts part.toNat ⟨hash, size, true⟩ }))
          uploadId = _
        rw [updateDoc_updateDoc s.uploads uploadId
          (fun d => { d with parts := setPart d.parts part.toNat ⟨hash, size, false⟩ })
          (fun d => { d with parts := setPart d.parts part.toNat ⟨hash, size, true⟩ })
          (fun d => rfl)]
        rw [findUpload_updateDoc s.uploads uploadId
          (fun d => { d with parts := setPart (setPart d.parts part.toNat ⟨hash, size, false⟩) part.toNat ⟨hash, size, true⟩ })
          (fun d => rfl), hget]
        rfl
      · apply checkPartSizes_preserved udoc.parts _ part size (by omega)
        · rw [setPart_setPart_length]
        · intro j hj hlt
          exact setPart_setPart_getElem_lt udoc.parts part.toNat _ _ j hlt hj
        · intro j hj hge
          exact setPart_setPart_getElem_pad udoc.parts part.toNat _ _ j hge hj
        · exact hcheck
      · exact setPart_getElem_self _ part.toNat _
      · rfl
      · rfl
    · -- the conditional write failed: error, contradicting success
      exact absurd (congrArg Prod.snd hini) (by simp)

/-- Witness for the C7 theorem at concrete inputs: a fresh upload receives
part 0, and the identical repeat is a successful no-op. -/
theorem putPart_idempotent_witness :
    PutPart ⟨[⟨"u1", "", 0, [some ⟨"h0", 5242880, true⟩]⟩], [("u1/0", [7])], []⟩
      "u1" 0 [7] 5242880 "h0"
    = (⟨[⟨"u1", "", 0, [some ⟨"h0", 5242880, true⟩]⟩], [("u1/0", [7])], []⟩, .ok ()) :=
  putPart_idempotent ⟨[⟨"u1", "", 0, []⟩], [], []⟩ _ "u1" 0 [7] 5242880 "h0" rfl

/-- Claim C8. Once a part record with some hash exists at an index, a
PutPart call for that index with a different hash always fails and leaves
the state - hence the stored part record's hash - unchanged; whenever the
call's basic number/size validations and the part-size check pass (so the
hash comparison is reached), the failure is precisely the hash-mismatch
(Conflict) error. -/
theorem putPart_different_hash_fails (s : Store) (uploadId : String) (k : Nat)
    (content : List Nat) (size : Int) (hashB : String) (udoc : UploadDoc)
    (p : PartInfo)
    (hget : findUpload s.uploads uploadId = some udoc)
    (hk : udoc.parts[k]? = some (some p))
    (hne : p.hash ≠ hashB) :
    ((PutPart s uploadId (k : Int) content size hashB).1 = s ∧
      ∃ e, (PutPart s uploadId (k : Int) content size hashB).2 = .error e) ∧
    (¬maxParts ≤ (k : Int) → ¬size ≤ 0 → ¬maxPartSize ≤ size →
      checkPartSizes udoc.parts (k : Int) size = .ok () →
      PutPart s uploadId (k : Int) content size hashB
        = (s, .error .hashMismatchPart)) := by
  have htn : ((k : Int)).toNat = k := Int.toNat_natCast k
  constructor
  · unfold PutPart
    split
    · exact ⟨rfl, _, rfl⟩
    split
    · exact ⟨rfl, _, rfl⟩
    split
    · exact ⟨rfl, _, rfl⟩
    split
    · exact ⟨rfl, _, rfl⟩
    rw [(getUpload_ok_iff s uploadId udoc).mpr hget]
    simp only []
    split
    · exact ⟨rfl, _, rfl⟩
    rw [htn, hk]
    simp only []
    rw [if_pos hne]
    exact ⟨rfl, _, rfl⟩
  · intro h1 h2 h3 hcheck
    unfold PutPart
    rw [if_neg (by omega), if_neg h1, if_neg h2, if_neg h3]
    rw [(getUpload_ok_iff s uploadId udoc).mpr hget]
    simp only []
    rw [hcheck]
    simp only []
    rw [htn, hk]
    simp only []
    rw [if_pos hne]

/-- Witness for the C8 theorem at concrete inputs: the stored part 0 has
hash "hA"; re-submitting with "hB" fails with the hash-mismatch error and
leaves the state unchanged. -/
theorem putPart_different_hash_fails_witness :
    (((PutPart ⟨[⟨"u", "", 0, [some ⟨"hA", 6000000, true⟩]⟩], [], []⟩
        "u" (0 : Int) [9] 6000000 "hB").1
      = ⟨[⟨"u", "", 0, [some ⟨"hA", 6000000, true⟩]⟩], [], []⟩ ∧
      ∃ e, (PutPart ⟨[⟨"u", "", 0, [some ⟨"hA", 6000000, true⟩]⟩], [], []⟩
        "u" (0 : Int) [9] 6000000 "hB").2 = .error e) ∧
    PutPart ⟨[⟨"u", "", 0, [some ⟨"hA", 6000000, true⟩]⟩], [], []⟩
        "u" (0 : Int) [9] 6000000 "hB"
      = (⟨[⟨"u", "", 0, [some ⟨"hA", 6000000, true⟩]⟩], [], []⟩,
        .error .hashMismatchPart)) :=
  ⟨(putPart_different_hash_fails
      ⟨[⟨"u", "", 0, [some ⟨"hA", 6000000, true⟩]⟩], [], []⟩ "u" 0 [9] 6000000
      "hB" ⟨"u", "", 0, [some ⟨"hA", 6000000, true⟩]⟩ ⟨"hA", 6000000, true⟩
      rfl rfl (by decide)).1,
   (putPart_different_hash_fails
      ⟨[⟨"u", "", 0, [some ⟨"hA", 6000000, true⟩]⟩], [], []⟩ "u" 0 [9] 6000000
      "hB" ⟨"u", "", 0, [some ⟨"hA", 6000000, true⟩]⟩ ⟨"hA", 6000000, true⟩
      rfl rfl (by decide)).2
     (by decide) (by decide) (by decide) rfl⟩

/-- Claim C9. Final-hash computation of FinishUpload. First conjunct
(single-part shortcut): for an upload whose record holds exactly one
complete part, FinishUpload returns that part's hash - for an arbitrary
backing store, in particular one holding no blob at all, so the part's blob
is never re-read. Second conjunct (general case): for two or more parts,
the returned hash is the hash accumulator applied to the concatenation of
the parts' blob contents taken in index order. -/
theorem finishUpload_hash_computation (hashFn : List Nat → String) :
    (∀ (s : Store) (uploadId : String) (d : UploadDoc) (p : PartInfo),
      findUpload s.uploads uploadId = some d → d.hash = "" →
      d.parts = [some p] → p.complete = true → minPartSize ≤ p.size →
      (FinishUpload hashFn s uploadId [⟨p.hash⟩]).2
        = .ok (⟨[uint32OfInt p.size]⟩, p.hash)) ∧
    (∀ (s : Store) (uploadId : String) (d : UploadDoc) (expected : List Part)
        (f : String → List Nat),
      findUpload s.uploads uploadId = some d → d.hash = "" →
      2 ≤ d.parts.length →
      List.Forall₂ (fun (q : Part) (op : Option PartInfo) =>
        ∃ u, op = some u ∧ u.complete = true ∧ q.hash = u.hash) expected d.parts →
      (∀ op ∈ d.parts, ∀ u : PartInfo, op = some u → minPartSize ≤ u.size) →
      (∀ nm ∈ (List.range d.parts.length).map (uploadPartName uploadId),
        lookupBlob s.blobs nm = some (f nm)) →
      (FinishUpload hashFn s uploadId expected).2
        = .ok (⟨d.parts.map (fun op => match op with
            | some u => uint32OfInt u.size
            | none => 0)⟩,
          hashFn ((((List.range d.parts.length).map
            (uploadPartName uploadId)).map f).flatten))) := by
  constructor
  · intro s uploadId d p hget hdh hparts hcomp hsize
    unfold FinishUpload
    rw [(getUpload_ok_iff s uploadId d).mpr hget]
    simp only []
    rw [if_neg (by rw [hparts]; simp)]
    have hc : checkExpectedParts [⟨p.hash⟩] d.parts 0 = .ok () := by
      rw [hparts]
      exact checkExpectedParts_ok _ _ 0
        (List.Forall₂.cons ⟨p, rfl, hcomp, rfl⟩ List.Forall₂.nil)
    rw [hc]
    simp only []
    have hps : checkPartSizes d.parts (-1) 0 = .ok () := by
      rw [hparts, checkPartSizes_ok_iff]
      constructor
      · intro hcon
        omega
      · intro j q hj hne
        cases j with
        | zero =>
          simp only [List.getElem?_cons_zero, Option.some.injEq] at hj
          cases hj
          exact hsize
        | succ j' => simp at hj
    rw [hps]
    simp only []
    have hsu : setUploadHash hashFn s uploadId d
        = ({ s with uploads := (updateDoc s.uploads uploadId
            (fun d' => { d' with hash := p.hash })) }, .ok p.hash) := by
      unfold setUploadHash
      rw [if_neg (by simp [hdh])]
      rw [hparts, hget]
      rfl
    rw [hsu]
    simp only []
    rw [hparts]
    rfl
  · intro s uploadId d expected f hget hdh hlen2 hfa hsizes hblobs
    unfold FinishUpload
    rw [(getUpload_ok_iff s uploadId d).mpr hget]
    simp only []
    rw [if_neg (by rw [List.Forall₂.length_eq hfa]; simp)]
    rw [checkExpectedParts_ok expected d.parts 0 hfa]
    simp only []
    have hps : checkPartSizes d.parts (-1) 0 = .ok () := by
      rw [checkPartSizes_ok_iff]
      constructor
      · intro hcon
        omega
      · intro j q hj hne
        exact hsizes _ (List.getElem?_mem hj) q rfl
    rw [hps]
    simp only []
    have hsu : setUploadHash hashFn s uploadId d
        = ({ s with uploads := (updateDoc s.uploads uploadId
            (fun d' => { d' with hash := hashFn ((((List.range d.parts.length).map (uploadPartName uploadId)).map f).flatten) })) },
           .ok (hashFn ((((List.range d.parts.length).map (uploadPartName uploadId)).map f).flatten))) := by
      unfold setUploadHash
      rw [if_neg (by simp [hdh])]
      simp only []
      rw [if_neg (by simp; omega)]
      rw [readBlobsAcc_ok s _ f hblobs]
      simp only []
      rw [hget]
    rw [hsu]

/-- Witness for the C9 theorem at concrete inputs: a single-part upload
finishes with the part's hash although the backing store holds no blob at
all, and a two-part upload finishes with the accumulator applied to the
concatenated contents `[1, 2] ++ [3]`. -/
theorem finishUpload_hash_computation_witness :
    ((FinishUpload (fun _ => "Z")
        ⟨[⟨"w", "", 0, [some ⟨"hh", 5242880, true⟩]⟩], [], []⟩ "w" [⟨"hh"⟩]).2
      = .ok (⟨[5242880]⟩, "hh")) ∧
    ((FinishUpload (fun l => toString l)
        ⟨[⟨"u2", "", 0, [some ⟨"a", 5242880, true⟩, some ⟨"b", 6000000, true⟩]⟩],
         [("u2/0", [1, 2]), ("u2/1", [3])], []⟩ "u2" [⟨"a"⟩, ⟨"b"⟩]).2
      = .ok (⟨[5242880, 6000000]⟩, "[1, 2, 3]")) :=
  ⟨(finishUpload_hash_computation (fun _ => "Z")).1
      ⟨[⟨"w", "", 0, [some ⟨"hh", 5242880, true⟩]⟩], [], []⟩ "w"
      ⟨"w", "", 0, [some ⟨"hh", 5242880, true⟩]⟩ ⟨"hh", 5242880, true⟩
      rfl rfl rfl rfl (by decide),
   (finishUpload_hash_computation (fun l => toString l)).2
      ⟨[⟨"u2", "", 0, [some ⟨"a", 5242880, true⟩, some ⟨"b", 6000000, true⟩]⟩],
       [("u2/0", [1, 2]), ("u2/1", [3])], []⟩ "u2"
      ⟨"u2", "", 0, [some ⟨"a", 5242880, true⟩, some ⟨"b", 6000000, true⟩]⟩
      [⟨"a"⟩, ⟨"b"⟩]
      (fun nm => if nm = "u2/0" then [1, 2] else [3])
      rfl rfl (by decide)
      (List.Forall₂.cons ⟨⟨"a", 5242880, true⟩, rfl, rfl, rfl⟩
        (List.Forall₂.cons ⟨⟨"b", 6000000, true⟩, rfl, rfl, rfl⟩
          List.Forall₂.nil))
      (by
        intro op hop u hu
        rcases List.mem_cons.mp hop with h | hop
        · rw [h] at hu
          injection hu with hu
          rw [← hu]
          decide
        rcases List.mem_cons.mp hop with h | hop
        · rw [h] at hu
          injection hu with hu
          rw [← hu]
          decide
        · simp at hop)
      (by
        intro nm hnm
        have h2 : nm ∈ (["u2/0", "u2/1"] : List String) := hnm
        rcases List.mem_cons.mp h2 with rfl | h2
        · rfl
        rcases List.mem_cons.mp h2 with rfl | h2
        · rfl
        · simp at h2)⟩

theorem mem_updateDoc (docs : List UploadDoc) (id : String)
    (f : UploadDoc → UploadDoc) (d' : UploadDoc) (h : d' ∈ updateDoc docs id f) :
    ∃ d ∈ docs, d' = d ∨ d' = f d := by
  unfold updateDoc at h
  obtain ⟨d, hd, heq⟩ := List.mem_map.mp h
  by_cases hc : d.id == id
  · rw [if_pos hc] at heq
    exact ⟨d, hd, Or.inr heq.symm⟩
  · rw [if_neg hc] at heq
    exact ⟨d, hd, Or.inl heq.symm⟩

/-- Every part record a successful PutPart leaves in the collection has its
size within the open interval (0, maxPartSize): the new record carries the
validated size and all other records are untouched. This justifies the
size-bounds hypothesis of the C10 theorem for uploads built by PutPart. -/
theorem putPart_preserves_size_bounds (s s' : Store) (uploadId : String)
    (part : Int) (content : List Nat) (size : Int) (hash : String)
    (hinv : ∀ d ∈ s.uploads, ∀ p : PartInfo, some p ∈ d.parts →
      0 < p.size ∧ p.size < maxPartSize)
    (h : PutPart s uploadId part content size hash = (s', .ok ())) :
    ∀ d ∈ s'.uploads, ∀ p : PartInfo, some p ∈ d.parts →
      0 < p.size ∧ p.size < maxPartSize := by
  unfold PutPart at h
  split at h
  · simp at h
  rename_i h0
  split at h
  · simp at h
  rename_i h1
  split at h
  · simp at h
  rename_i h2
  split at h
  · simp at h
  rename_i h3
  split at h
  · simp at h
  rename_i udoc hget0
  have hget : findUpload s.uploads uploadId = some udoc :=
    (getUpload_ok_iff s uploadId udoc).mp hget0
  have hsz : 0 < size ∧ size < maxPartSize := ⟨by omega, by omega⟩
  split at h
  · simp at h
  rename_i hcheck
  split at h
  · rename_i p hk
    split at h
    · simp at h
    rename_i hhash
    split at h
    · -- no-op: s' = s
      have hss : s = s' := by
        simpa using congrArg Prod.fst h
      subst hss
      exact hinv
    · -- overwrite of the existing incomplete record
      rw [uploadAndComplete_ok s uploadId part.toNat content size hash udoc hget] at h
      have hs' := congrArg Prod.fst h
      simp only [] at hs'
      subst hs'
      intro d' hd' p' hp'
      have hd2 : d' ∈ updateDoc s.uploads uploadId
          (fun d => { d with parts := setPart d.parts part.toNat ⟨hash, size, true⟩ }) := hd'
      obtain ⟨d, hd, hcase⟩ := mem_updateDoc _ _ _ _ hd2
      rcases hcase with rfl | rfl
      · exact hinv _ hd p' hp'
      · rcases mem_setPart _ _ _ _ hp' with hmem | heq | heq
        · exact hinv _ hd p' hmem
        · injection heq with heq
          rw [heq]
          exact hsz
        · cases heq
  · rename_i hk
    split at h
    · simp at h
    rename_i hudochash
    split at h
    · simp at h
    rename_i s1 hini
    unfold initializePart at hini
    split at hini
    · have hs1 := congrArg Prod.fst hini
      simp only [] at hs1
      subst hs1
      have hget1 : findUpload (updateDoc s.uploads uploadId
          (fun d => { d with parts := setPart d.parts part.toNat ⟨hash, size, false⟩ }))
          uploadId
          = some { udoc with parts := setPart udoc.parts part.toNat ⟨hash, size, false⟩ } := by
        rw [findUpload_updateDoc s.uploads uploadId
          (fun d => { d with parts := setPart d.parts part.toNat ⟨hash, size, false⟩ })
          (fun d => rfl), hget]
        rfl
      rw [uploadAndComplete_ok _ uploadId part.toNat content size hash
        { udoc with parts := setPart udoc.parts part.toNat ⟨hash, size, false⟩ } hget1] at h
      have hs2 := congrArg Prod.fst h
      simp only [] at hs2
      subst hs2
      intro d' hd' p' hp'
      have hd2 : d' ∈ updateDoc (updateDoc s.uploads uploadId
          (fun d => { d with parts := setPart d.parts part.toNat ⟨hash, size, false⟩ }))
          uploadId
          (fun d => { d with parts := setPart d.parts part.toNat ⟨hash, size, true⟩ }) := hd'
      obtain ⟨d1, hd1, hcase1⟩ := mem_updateDoc _ _ _ _ hd2
      obtain ⟨d, hd, hcase⟩ := mem_updateDoc _ _ _ _ hd1
      have hin : ∀ p : PartInfo, some p ∈ d1.parts →
          0 < p.size ∧ p.size < maxPartSize := by
        rcases hcase with rfl | rfl
        · exact hinv _ hd
        · intro q hq
          rcases mem_setPart _ _ _ _ hq with hmem | heq | heq
          · exact hinv _ hd q hmem
          · injection heq with heq
            rw [heq]
            exact hsz
          · cases heq
      rcases hcase1 with rfl | rfl
      · exact hin p' hp'
      · rcases mem_setPart _ _ _ _ hp' with hmem | heq | heq
        · exact hin p' hmem
        · injection heq with heq
          rw [heq]
          exact hsz
        · cases heq
    · exact absurd (congrArg Prod.snd hini) (by simp)

/-- The index returned by a successful FinishUpload: the stored parts'
sizes, each through the uint32 conversion (a stored nil part, unreachable
after the completeness check, contributes 0). -/
theorem finishUpload_ok_index (hashFn : List Nat → String) (s s1 : Store)
    (uploadId : String) (parts : List Part) (idx : MultipartIndex)
    (hash : String) (udoc : UploadDoc)
    (hget : findUpload s.uploads uploadId = some udoc)
    (hfin : FinishUpload hashFn s uploadId parts = (s1, .ok (idx, hash))) :
    idx = ⟨udoc.parts.map (fun op => match op with
      | some p => uint32OfInt p.size
      | none => 0)⟩ := by
  unfold FinishUpload at hfin
  rw [(getUpload_ok_iff s uploadId udoc).mpr hget] at hfin
  simp only [] at hfin
  split at hfin
  · simp at hfin
  split at hfin
  · simp at hfin
  split at hfin
  · simp at hfin
  split at hfin
  · simp at hfin
  · have h2 := congrArg Prod.snd hfin
    simp only [Except.ok.injEq, Prod.mk.injEq] at h2
    exact h2.1.symm

/-- Claim C10. When every recorded part size lies in the open interval
(0, maxPartSize) - which PutPart enforces on every part it accepts, see
`putPart_preserves_size_bounds` - each entry of the MultipartIndex returned
by a successful FinishUpload equals the corresponding part's recorded int64
size exactly: the uint32 conversion never truncates. -/
theorem finishUpload_sizes_exact (hashFn : List Nat → String) (s s1 : Store)
    (uploadId : String) (parts : List Part) (idx : MultipartIndex)
    (hash : String) (udoc : UploadDoc)
    (hget : findUpload s.uploads uploadId = some udoc)
    (hbounds : ∀ p : PartInfo, some p ∈ udoc.parts →
      0 < p.size ∧ p.size < maxPartSize)
    (hfin : FinishUpload hashFn s uploadId parts = (s1, .ok (idx, hash))) :
    ∀ (i : Nat) (p : PartInfo), udoc.parts[i]? = some (some p) →
      idx.sizes[i]? = some p.size.toNat ∧ (p.size.toNat : Int) = p.size := by
  intro i p hi
  have hidx := finishUpload_ok_index hashFn s s1 uploadId parts idx hash udoc
    hget hfin
  obtain ⟨hpos, hlt⟩ := hbounds p (List.getElem?_mem hi)
  have hlt' : p.size < 4294967295 := by
    have : maxPartSize = 4294967295 := by norm_num [maxPartSize]
    omega
  have hu : uint32OfInt p.size = p.size.toNat := by
    unfold uint32OfInt
    rw [Int.emod_eq_of_lt (by omega) (by norm_num; omega)]
  constructor
  · rw [hidx]
    simp only [List.getElem?_map, hi]
    show some (uint32OfInt p.size) = some p.size.toNat
    rw [hu]
  · rw [Int.toNat_of_nonneg (by omega)]

/-- Witness for the C10 theorem at concrete inputs: both entries of the
returned index equal the recorded sizes exactly. -/
theorem finishUpload_sizes_exact_witness :
    ((⟨[5242880, 6000000]⟩ : MultipartIndex).sizes[0]?
        = some ((5242880 : Int).toNat) ∧
      (((5242880 : Int).toNat : Int) = (5242880 : Int))) ∧
    ((⟨[5242880, 6000000]⟩ : MultipartIndex).sizes[1]?
        = some ((6000000 : Int).toNat) ∧
      (((6000000 : Int).toNat : Int) = (6000000 : Int))) :=
  ⟨finishUpload_sizes_exact (fun l => toString l)
      ⟨[⟨"u2", "", 0, [some ⟨"a", 5242880, true⟩, some ⟨"b", 6000000, true⟩]⟩],
       [("u2/0", [1, 2]), ("u2/1", [3])], []⟩
      ⟨[⟨"u2", "[1, 2, 3]", 0,
          [some ⟨"a", 5242880, true⟩, some ⟨"b", 6000000, true⟩]⟩],
       [("u2/0", [1, 2]), ("u2/1", [3])], []⟩
      "u2" [⟨"a"⟩, ⟨"b"⟩] ⟨[5242880, 6000000]⟩ "[1, 2, 3]"
      ⟨"u2", "", 0, [some ⟨"a", 5242880, true⟩, some ⟨"b", 6000000, true⟩]⟩
      rfl
      (by
        intro p hp
        rcases List.mem_cons.mp hp with h | hp
        · injection h with h
          rw [h]
          decide
        rcases List.mem_cons.mp hp with h | hp
        · injection h with h
          rw [h]
          decide
        · simp at hp)
      rfl 0 ⟨"a", 5242880, true⟩ rfl,
   finishUpload_sizes_exact (fun l => toString l)
      ⟨[⟨"u2", "", 0, [some ⟨"a", 5242880, true⟩, some ⟨"b", 6000000, true⟩]⟩],
       [("u2/0", [1, 2]), ("u2/1", [3])], []⟩
      ⟨[⟨"u2", "[1, 2, 3]", 0,
          [some ⟨"a", 5242880, true⟩, some ⟨"b", 6000000, true⟩]⟩],
       [("u2/0", [1, 2]), ("u2/1", [3])], []⟩
      "u2" [⟨"a"⟩, ⟨"b"⟩] ⟨[5242880, 6000000]⟩ "[1, 2, 3]"
      ⟨"u2", "", 0, [some ⟨"a", 5242880, true⟩, some ⟨"b", 6000000, true⟩]⟩
      rfl
      (by
        intro p hp
        rcases List.mem_cons.mp hp with h | hp
        · injection h with h
          rw [h]
          decide
        rcases List.mem_cons.mp hp with h | hp
        · injection h with h
          rw [h]
          decide
        · simp at hp)
      rfl 1 ⟨"b", 6000000, true⟩ rfl⟩

end Blobstore
